import Mathlib

/-!
Verification of the Tg_Link_Bot catalogue bot (`src/bot.py`).

The bot maintains a JSON catalogue of categorized links, renders an index
message and one message per category, and reconciles them into a channel.
We embed the data model and the pure/effectful operations shallowly:
pure text formatting becomes Lean string functions, and the effectful
command handlers become functions producing an ordered list of `Event`s
(messages sent, edit attempts, saves, replies), parameterised by the
outcomes of the remote messaging API.
-/

namespace TgLinkBot

/-- Models Python `str.strip().split()` (`split` with no separator): split
on whitespace runs, dropping empty pieces.  The leading `strip()` of the
source is a no-op for this splitting (it only removes leading/trailing
whitespace, which never contributes a non-empty piece), so both are
modelled by the same function.  Implemented over `String.data` so it is
kernel-computable. -/
def pySplit (s : String) : List String :=
  ((List.splitOnP Char.isWhitespace s.data).map String.mk).filter (fun t => !t.data.isEmpty)

/-- Models Python `str.startswith(pre)`. -/
def pyStartsWith (s pre : String) : Bool := pre.data.isPrefixOf s.data

/-- Models Python `str.lower()` on a single character, for the ASCII and
Latin-1 uppercase ranges (enough for the catalogue's category names such
as "Diseño"; `bot.py` only ever compares lowered category names). -/
def pyCharLower (c : Char) : Char :=
  if ('A' ≤ c && c ≤ 'Z') || ('À' ≤ c && c ≤ 'Þ' && c ≠ '×') then
    Char.ofNat (c.toNat + 32)
  else c

/-- Models Python `str.upper()` on a single character, for the ASCII and
Latin-1 lowercase ranges (inverse of `pyCharLower` on those ranges). -/
def pyCharUpper (c : Char) : Char :=
  if ('a' ≤ c && c ≤ 'z') || ('à' ≤ c && c ≤ 'þ' && c ≠ '÷') then
    Char.ofNat (c.toNat - 32)
  else c

/-- Models Python `str.lower()`. -/
def pyLower (s : String) : String := String.mk (s.data.map pyCharLower)

/-- Models Python `str.upper()`. -/
def pyUpper (s : String) : String := String.mk (s.data.map pyCharUpper)

/-- Models Python `s.lstrip('@')`: drop every leading `'@'`. -/
def lstripAt (s : String) : String := String.mk (s.data.dropWhile (fun c => c == '@'))

/-- Decides whether `sub` occurs as a contiguous substring of `hay`
(character-list level; both Python `in` and display checks). -/
def containsSub (hay sub : List Char) : Bool :=
  match hay with
  | [] => sub.isEmpty
  | _ :: t => sub.isPrefixOf hay || containsSub t sub

/-- String-level substring occurrence. -/
def strContains (hay sub : String) : Bool := containsSub hay.data sub.data

/-! ## Data model (`data.json`, §3 of the spec)

A JSON field that may be absent, `null`, or an integer is modelled as
`Option (Option Nat)`: `none` = key absent, `some none` = JSON `null`,
`some (some n)` = integer `n`.  `channel_username` is `Option String`
(`none` = absent or `null`).  A category's `links` array is a list
(`info.get("links", [])` and `setdefault("links", [])` make an absent
key behave as the empty list). -/

structure LinkEntry where
  texto : String
  url : String
  autor : String
deriving Repr, DecidableEq, Inhabited

structure Category where
  message_id : Option (Option Nat)
  links : List LinkEntry
deriving Repr, DecidableEq, Inhabited

structure CatalogueDocument where
  channel_username : Option String
  indice_message_id : Option (Option Nat)
  categorias : List (String × Category)
deriving Repr, DecidableEq

/-- Python truthiness of `data.get("channel_username")`: falsy when the key
is absent, `null`, or the empty string. -/
def truthyStr : Option String → Bool
  | some s => !s.data.isEmpty
  | none => false

/-- Python truthiness of `info.get("message_id")`: falsy when the key is
absent, `null`, or `0`. -/
def truthyId : Option (Option Nat) → Bool
  | some (some n) => n != 0
  | _ => false

/-- The integer value of a message-id field (only meaningful when
`truthyId` holds). -/
def idVal : Option (Option Nat) → Nat
  | some (some n) => n
  | _ => 0

/-! ## Renderers (`format_index`, `format_category_message`) -/

/-- One line of the index, for category `p` (`bot.py` lines 39-45). -/
def indexLine (channel : Option String) (p : String × Category) : String :=
  let count := p.2.links.length
  let jump :=
    if (truthyStr channel && truthyId p.2.message_id) = true then
      " — <a href=\"https://t.me/" ++ lstripAt (channel.getD "") ++ "/"
        ++ toString (idVal p.2.message_id) ++ "\">ir</a>"
    else ""
  "• <b>" ++ p.1 ++ "</b> (" ++ toString count ++ ")" ++ jump

/-- The `lines` list built by `format_index` before `"\n".join`. -/
def format_index_lines (data : CatalogueDocument) : List String :=
  "📚 <b>ÍNDICE</b>\n" :: data.categorias.map (indexLine data.channel_username)

/-- `format_index` (`bot.py` lines 37-46). -/
def format_index (data : CatalogueDocument) : String :=
  String.intercalate "\n" (format_index_lines data)

/-- One numbered line of a category message: `p.1` is the 1-based number
(`enumerate(links, start=1)`), `item.get("texto") or item.get("url")`
falls back to the URL when the title is empty. -/
def linkLine (p : Nat × LinkEntry) : String :=
  let title := if p.2.texto = "" then p.2.url else p.2.texto
  toString p.1 ++ ". <a href=\"" ++ p.2.url ++ "\">" ++ title ++ "</a>"

/-- `format_category_message` (`bot.py` lines 49-59). -/
def format_category_message (cat_name : String) (links : List LinkEntry) : String :=
  let header := "📎 <b>" ++ pyUpper cat_name ++ "</b> (" ++ toString links.length
    ++ " enlaces)\n\n"
  if links.isEmpty then
    header ++ "_No hay enlaces aún. Agrega alguno con_ /add"
  else
    header ++ String.intercalate "\n" ((List.enumFrom 1 links).map linkLine)

/-! ## Command argument parsing (`parse_add_args`) -/

/-- Matches the regex `^https?://\S+$`: `http` + optional `s` + `://`,
then one or more non-whitespace characters, anchored at both ends. -/
def isUrlToken (s : String) : Bool :=
  (pyStartsWith s "http://" && !(s.data.drop 7).isEmpty
    && (s.data.drop 7).all (fun c => !c.isWhitespace))
  || (pyStartsWith s "https://" && !(s.data.drop 8).isEmpty
    && (s.data.drop 8).all (fun c => !c.isWhitespace))

/-- `if parts and parts[0].startswith("/add"): parts = parts[1:]`. -/
def stripAddCmd (parts : List String) : List String :=
  match parts with
  | p :: rest => if pyStartsWith p "/add" then rest else parts
  | [] => []

/-- The token list `parse_add_args` works on after removing the command. -/
def addTokens (text : String) : List String := stripAddCmd (pySplit text)

/-- The backwards scan `for i in range(len(parts)-1, -1, -1)` that finds
the index of the last URL-shaped token. -/
def findLastUrlIdx : List String → Option Nat
  | [] => none
  | p :: rest =>
    match findLastUrlIdx rest with
    | some j => some (j + 1)
    | none => if isUrlToken p then some 0 else none

/-- `parse_add_args` (`bot.py` lines 106-130).  The `(None, None, None)`
no-match sentinel is modelled as `none`. -/
def parse_add_args (text : String) : Option (String × String × String) :=
  let parts := addTokens text
  if parts.isEmpty then none
  else
    match findLastUrlIdx parts with
    | none => none
    | some url_idx =>
      let url := parts.getD url_idx ""
      let category := parts.getD 0 ""
      let title := if url_idx > 1 then
          String.intercalate " " ((parts.drop 1).take (url_idx - 1))
        else ""
      some (category, title, url)

/-! ## Effectful command handlers

Handlers are modelled as functions producing the ordered list of
observable effects (`Event`s).  Remote-call outcomes are inputs:
`ids k` is the message id the channel returns for the `k`-th successful
`send_message`, and `remoteOk k` tells whether the `k`-th remote call of
a handler succeeds (a `False` models the call raising, which `bot.py`
catches and logs wherever the call sits inside a `try`). -/

inductive Event where
  /-- A successful `send_message`, returning message id `mid`. -/
  | sent (chat : String) (text : String) (mid : Nat)
  /-- A `send_message` that raised and was caught (refresh only). -/
  | sendFailed (chat : String) (text : String)
  /-- An `edit_message_text` attempt; `ok = false` means it raised and the
  handler caught and logged the exception. -/
  | editAttempt (chat : String) (mid : Option Nat) (text : String) (ok : Bool)
  /-- A `save_data` call writing `doc` to disk. -/
  | saved (doc : CatalogueDocument)
  /-- A `reply_text` to the invoking user. -/
  | replied (text : String)
  /-- The `logger.warning` skip in `ensure_channel_messages`. -/
  | warned
  /-- An uncaught `KeyError` escaping the handler. -/
  | raisedKeyError
deriving Repr, DecidableEq

/-- The per-category loop of `ensure_channel_messages` (`bot.py` lines
85-91): send a message for each category whose `message_id` is falsy and
record the returned id; `k` counts sends already made.  Returns the
updated category list, the events, and whether anything was modified. -/
def ensureCats (channel : String) (ids : Nat → Nat) :
    Nat → List (String × Category) → List (String × Category) × List Event × Bool
  | _, [] => ([], [], false)
  | k, (cat, info) :: rest =>
    if truthyId info.message_id then
      let r := ensureCats channel ids k rest
      ((cat, info) :: r.1, r.2.1, r.2.2)
    else
      let text := format_category_message cat info.links
      let mid := ids k
      let r := ensureCats channel ids (k + 1) rest
      ((cat, { info with message_id := some (some mid) }) :: r.1,
       Event.sent channel text mid :: r.2.1, true)

/-- `ensure_channel_messages` (`bot.py` lines 62-95).  Sends are not
wrapped in `try` in the source, so they are modelled as always
succeeding; `ids` supplies the returned message ids.  Returns the events
and the final in-memory document. -/
def ensure_channel_messages (ids : Nat → Nat) (data : CatalogueDocument) :
    List Event × CatalogueDocument :=
  if !truthyStr data.channel_username then
    ([Event.warned], data)
  else
    let channel := data.channel_username.getD ""
    let (data1, ev1, k1, mod1) :=
      if !truthyId data.indice_message_id then
        let text := format_index data
        let mid := ids 0
        ({ data with indice_message_id := some (some mid) },
         [Event.sent channel text mid], 1, true)
      else (data, ([] : List Event), 0, false)
    let r := ensureCats channel ids k1 data1.categorias
    let data2 := { data1 with categorias := r.1 }
    let modified := mod1 || r.2.2
    (ev1 ++ r.2.1 ++ (if modified then [Event.saved data2] else []), data2)

/-- The case-insensitive match list
`[c for c in data["categorias"].keys() if c.lower() == category.lower()]`. -/
def findMatches (data : CatalogueDocument) (category : String) : List String :=
  (data.categorias.map Prod.fst).filter (fun c => pyLower c == pyLower category)

/-- Association-list lookup of a category by its exact key. -/
def lookupCat (data : CatalogueDocument) (key : String) : Option Category :=
  (data.categorias.find? (fun p => p.1 == key)).map Prod.snd

/-- In-place update of one category (Python mutates the dict value). -/
def updateCat (cats : List (String × Category)) (key : String) (f : Category → Category) :
    List (String × Category) :=
  cats.map (fun p => if p.1 == key then (p.1, f p.2) else p)

/-- The author field `user.username or user.full_name` of the link entry
(`username` falsy — absent or empty — falls back to the full name). -/
def pyAuthor (username : Option String) (fullName : String) : String :=
  match username with
  | some u => if u = "" then fullName else u
  | none => fullName

/-- The entry built by `/add`:
`{"texto": title or url, "url": url, "autor": user.username or user.full_name}`. -/
def mkEntry (title url : String) (username : Option String) (fullName : String) : LinkEntry :=
  { texto := if title = "" then url else title, url := url,
    autor := pyAuthor username fullName }

/-- `data["categorias"][cat_key].setdefault("links", []).append(entry)`. -/
def appendLink (e : LinkEntry) (c : Category) : Category :=
  { c with links := c.links ++ [e] }

/-- The document after `/add` appends `e` to category `cat_key`. -/
def withAppended (data : CatalogueDocument) (cat_key : String) (e : LinkEntry) :
    CatalogueDocument :=
  { data with categorias := updateCat data.categorias cat_key (appendLink e) }

/-- The usage-help reply of `/add`. -/
def usageMsg : String :=
  "Uso inválido. Formato correcto:\n/add <Categoría> <Título opcional> <URL>\nEjemplo:\n/add Diseño Vectorizar imagen https://example.com"

/-- `add_command` (`bot.py` lines 133-175).  `raw` is the message text,
`username`/`fullName` the sender's fields (`user.username or
user.full_name` picks the author), `data` the document `load_data`
returns, and `remoteOk k` the outcome of the `k`-th
`edit_message_text`. -/
def add_command (raw : String) (username : Option String) (fullName : String)
    (data : CatalogueDocument) (remoteOk : Nat → Bool) : List Event :=
  match parse_add_args raw with
  | none => [Event.replied usageMsg]
  | some (category, title, url) =>
    if category = "" || url = "" then [Event.replied usageMsg]
    else
      match findMatches data category with
      | [] => [Event.replied ("Categoría '" ++ category
          ++ "' no encontrada. Usa /list para ver categorías disponibles.")]
      | cat_key :: _ =>
        let entry := mkEntry title url username fullName
        let data2 := withAppended data cat_key entry
        let tail :=
          if truthyStr data2.channel_username then
            let channel := data2.channel_username.getD ""
            match lookupCat data2 cat_key with
            | none => [Event.raisedKeyError]
            | some c =>
              match c.message_id with
              | none => [Event.raisedKeyError]
              | some mid =>
                let new_text := format_category_message cat_key c.links
                let idxEvs :=
                  if truthyId data2.indice_message_id then
                    [Event.editAttempt channel (some (idVal data2.indice_message_id))
                      (format_index data2) (remoteOk 1)]
                  else []
                Event.editAttempt channel mid new_text (remoteOk 0) :: idxEvs
                  ++ [Event.replied ("Enlace agregado a <b>" ++ cat_key ++ "</b> ✅")]
          else [Event.replied ("Enlace agregado a <b>" ++ cat_key ++ "</b> ✅")]
        Event.saved data2 :: tail

/-- The per-category loop of `refresh_command` (`bot.py` lines 198-208):
edit when a message id is recorded, otherwise send and record; each call
sits in a `try`, so a failure (`remoteOk k = false`) is logged and the
loop continues.  `k` counts remote calls already made; the final count is
returned. -/
def refreshCats (channel : String) (remoteOk : Nat → Bool) (ids : Nat → Nat) :
    Nat → List (String × Category) → List (String × Category) × List Event × Nat
  | k, [] => ([], [], k)
  | k, (cat, info) :: rest =>
    let text := format_category_message cat info.links
    if truthyId info.message_id then
      let r := refreshCats channel remoteOk ids (k + 1) rest
      ((cat, info) :: r.1,
       Event.editAttempt channel (some (idVal info.message_id)) text (remoteOk k) :: r.2.1,
       r.2.2)
    else
      if remoteOk k then
        let mid := ids k
        let r := refreshCats channel remoteOk ids (k + 1) rest
        ((cat, { info with message_id := some (some mid) }) :: r.1,
         Event.sent channel text mid :: r.2.1, r.2.2)
      else
        let r := refreshCats channel remoteOk ids (k + 1) rest
        ((cat, info) :: r.1, Event.sendFailed channel text :: r.2.1, r.2.2)

/-- `refresh_command` (`bot.py` lines 187-223). -/
def refresh_command (data : CatalogueDocument) (remoteOk : Nat → Bool) (ids : Nat → Nat) :
    List Event :=
  if !truthyStr data.channel_username then
    [Event.replied "channel_username no está configurado en data.json. Edita el archivo y pon el @username del canal."]
  else
    let channel := data.channel_username.getD ""
    let r := refreshCats channel remoteOk ids 0 data.categorias
    let data1 := { data with categorias := r.1 }
    let k := r.2.2
    let idx_text := format_index data1
    let (data2, idxEvs) :=
      if truthyId data1.indice_message_id then
        (data1, [Event.editAttempt channel (some (idVal data1.indice_message_id)) idx_text (remoteOk k)])
      else
        if remoteOk k then
          ({ data1 with indice_message_id := some (some (ids k)) },
           [Event.sent channel idx_text (ids k)])
        else (data1, [Event.sendFailed channel idx_text])
    r.2.1 ++ idxEvs ++ [Event.saved data2, Event.replied "Canal regenerado ✅"]

/-! ## String infrastructure lemmas -/

theorem str_append_assoc (a b c : String) : a ++ b ++ c = a ++ (b ++ c) :=
  String.ext (by simp [String.data_append])

theorem intercalate_go_append (s : String) :
    ∀ (t : List String) (x y : String),
      String.intercalate.go (x ++ y) s t = x ++ String.intercalate.go y s t
  | [], _, _ => rfl
  | c :: t', x, y => by
    show String.intercalate.go (x ++ y ++ s ++ c) s t'
      = x ++ String.intercalate.go (y ++ s ++ c) s t'
    rw [str_append_assoc (x ++ y) s c, str_append_assoc x y (s ++ c),
      ← str_append_assoc y s c]
    exact intercalate_go_append s t' x (y ++ s ++ c)

theorem intercalate_cons_cons (s a b : String) (t : List String) :
    String.intercalate s (a :: b :: t) = a ++ s ++ String.intercalate s (b :: t) := by
  show String.intercalate.go (a ++ s ++ b) s t = a ++ s ++ String.intercalate.go b s t
  exact intercalate_go_append s t (a ++ s) b

theorem intercalate_singleton (s a : String) : String.intercalate s [a] = a := rfl

/-- Number of newline characters in a string; a (sane) text with
`nlCount s = n` occupies `n + 1` display lines. -/
def nlCount (s : String) : Nat := s.data.count '\n'

theorem nlCount_append (a b : String) : nlCount (a ++ b) = nlCount a + nlCount b := by
  simp [nlCount, String.data_append]

theorem nlCount_intercalate_nl :
    ∀ (a : String) (t : List String),
      nlCount (String.intercalate "\n" (a :: t))
        = nlCount a + ((t.map nlCount).sum + t.length)
  | _, [] => by simp [intercalate_singleton]
  | a, b :: t => by
    rw [intercalate_cons_cons, nlCount_append, nlCount_append, nlCount_intercalate_nl b t]
    have h1 : nlCount "\n" = 1 := rfl
    simp [h1]
    omega

theorem digitChar_isDigit : ∀ m : Nat, m < 10 → (Nat.digitChar m).isDigit = true := by
  decide

theorem toDigitsCore_digits :
    ∀ (fuel n : Nat) (ds : List Char), (∀ c ∈ ds, c.isDigit = true) →
      ∀ c ∈ Nat.toDigitsCore 10 fuel n ds, c.isDigit = true
  | 0, _, _, h => by simpa [Nat.toDigitsCore] using h
  | fuel + 1, n, ds, h => by
    have hd : ∀ c ∈ (n % 10).digitChar :: ds, c.isDigit = true := by
      intro c hc
      rcases List.mem_cons.1 hc with rfl | hc
      · exact digitChar_isDigit _ (Nat.mod_lt _ (by omega))
      · exact h c hc
    simp only [Nat.toDigitsCore]
    split
    · exact hd
    · exact toDigitsCore_digits fuel (n / 10) _ hd

theorem toString_nat_digits (n : Nat) : ∀ c ∈ (toString n).data, c.isDigit = true := by
  intro c hc
  exact toDigitsCore_digits (n + 1) n [] (by simp) c hc

theorem nlCount_toString_nat (n : Nat) : nlCount (toString n) = 0 := by
  rw [nlCount, List.count_eq_zero]
  intro h
  exact absurd (toString_nat_digits n _ h) (by decide)

theorem nlCount_lstripAt (s : String) (h : nlCount s = 0) : nlCount (lstripAt s) = 0 := by
  rw [nlCount, List.count_eq_zero] at h ⊢
  intro hmem
  exact h ((List.dropWhile_sublist _).mem hmem)

theorem isPrefixOf_append_self : ∀ (l t : List Char), l.isPrefixOf (l ++ t) = true
  | [], _ => by simp [List.isPrefixOf]
  | a :: l', t => by simp [List.isPrefixOf, isPrefixOf_append_self l' t]

theorem containsSub_of_append :
    ∀ (pre sub post : List Char), containsSub (pre ++ sub ++ post) sub = true
  | [], [], post => by cases post <;> simp [containsSub, List.isPrefixOf]
  | [], s :: sub', post => by
    simp only [List.nil_append, containsSub]
    rw [isPrefixOf_append_self (s :: sub') post]
    rfl
  | p :: pre', sub, post => by
    show (sub.isPrefixOf (p :: (pre' ++ sub ++ post))
      || containsSub (pre' ++ sub ++ post) sub) = true
    rw [containsSub_of_append pre' sub post, Bool.or_true]

theorem strContains_append_mid (a b c : String) : strContains (a ++ b ++ c) b = true := by
  show containsSub (a ++ b ++ c).data b.data = true
  rw [String.data_append, String.data_append]
  exact containsSub_of_append a.data b.data c.data

/-! ## Lemmas about the backwards URL scan -/

theorem findLastUrlIdx_none_iff :
    ∀ l : List String, findLastUrlIdx l = none ↔ ∀ t ∈ l, isUrlToken t = false
  | [] => by simp [findLastUrlIdx]
  | p :: rest => by
    have ih := findLastUrlIdx_none_iff rest
    simp only [findLastUrlIdx]
    cases hr : findLastUrlIdx rest with
    | some j =>
      constructor
      · intro h; cases h
      · intro hall
        have : findLastUrlIdx rest = none :=
          ih.2 (fun t ht => hall t (List.mem_cons_of_mem p ht))
        rw [hr] at this; cases this
    | none =>
      have hrest := ih.1 hr
      cases hp : isUrlToken p with
      | true =>
        simp only [hp, if_true]
        constructor
        · intro h; cases h
        · intro hall
          have h2 := hall p (List.mem_cons_self p rest)
          rw [hp] at h2; cases h2
      | false =>
        simp only [hp, Bool.false_eq_true, if_false]
        constructor
        · intro _ t ht
          rcases List.mem_cons.1 ht with rfl | ht
          · exact hp
          · exact hrest t ht
        · intro _
          trivial

theorem findLastUrlIdx_some_spec :
    ∀ (l : List String) (j : Nat), findLastUrlIdx l = some j →
      j < l.length ∧ isUrlToken (l.getD j "") = true ∧
        ∀ k, j < k → k < l.length → isUrlToken (l.getD k "") = false
  | [], j => by simp [findLastUrlIdx]
  | p :: rest, j => by
    simp only [findLastUrlIdx]
    cases hr : findLastUrlIdx rest with
    | some j' =>
      intro hj
      obtain rfl : j' + 1 = j := by simpa using hj
      obtain ⟨h1, h2, h3⟩ := findLastUrlIdx_some_spec rest j' hr
      refine ⟨by simpa using h1, by simpa using h2, ?_⟩
      intro k hk1 hk2
      match k, hk1 with
      | k' + 1, _ =>
        simpa using h3 k' (by omega) (by simpa using hk2)
    | none =>
      cases hp : isUrlToken p with
      | false => simp
      | true =>
        intro hj
        obtain rfl : 0 = j := by simpa using hj
        refine ⟨by simp, by simpa using hp, ?_⟩
        intro k hk1 hk2
        match k, hk1 with
        | k' + 1, _ =>
          have hall := (findLastUrlIdx_none_iff rest).1 hr
          have hk' : k' < rest.length := by simpa using hk2
          rw [List.getD_cons_succ, List.getD_eq_getElem?_getD,
            List.getElem?_eq_getElem hk']
          exact hall _ (List.getElem_mem hk')

theorem getD_mem_of_lt (l : List String) (j : Nat) (h : j < l.length) : l.getD j "" ∈ l := by
  rw [List.getD_eq_getElem?_getD, List.getElem?_eq_getElem h]
  exact List.getElem_mem h

/-- Unfolding equation for `parse_add_args` in terms of `addTokens`. -/
theorem parse_add_args_eq (text : String) :
    parse_add_args text =
      (if (addTokens text).isEmpty then none
       else match findLastUrlIdx (addTokens text) with
         | none => none
         | some url_idx =>
           some ((addTokens text).getD 0 "",
             if url_idx > 1 then
               String.intercalate " " (((addTokens text).drop 1).take (url_idx - 1))
             else "",
             (addTokens text).getD url_idx "")) := rfl

/-! ## Claim theorems -/

/-- C1: `parse_add_args` splits the text on whitespace, drops the leading
token if it starts with `/add`, and returns the no-match sentinel (`none`)
iff no tokens remain or no token matches `^https?://\S+$`; otherwise it
returns `(category, title, url)` where `url` is the last URL-shaped token
(index `j`), `category` is the first remaining token, and `title` is the
space-join of the tokens strictly between them.  In particular the two
concrete examples from the specification hold. -/
theorem parse_add_args_correct (text : String) :
    (parse_add_args text = none ↔
      (addTokens text = [] ∨ ∀ t ∈ addTokens text, isUrlToken t = false)) ∧
    (∀ c ti u, parse_add_args text = some (c, ti, u) →
      c = (addTokens text).getD 0 "" ∧
      ∃ j, j < (addTokens text).length ∧ u = (addTokens text).getD j "" ∧
        isUrlToken u = true ∧
        (∀ k, j < k → k < (addTokens text).length →
          isUrlToken ((addTokens text).getD k "") = false) ∧
        ti = String.intercalate " " (((addTokens text).drop 1).take (j - 1))) ∧
    parse_add_args "/add Diseño Mi título https://example.com/x"
      = some ("Diseño", "Mi título", "https://example.com/x") ∧
    parse_add_args "/add Diseño sin-url-aquí" = none := by
  have hdef := parse_add_args_eq text
  refine ⟨?_, ?_, by rfl, by rfl⟩
  · rw [hdef]
    cases hl : addTokens text with
    | nil => simp
    | cons a t =>
      simp only [List.isEmpty_cons, Bool.false_eq_true, if_false]
      cases hf : findLastUrlIdx (a :: t) with
      | none =>
        exact iff_of_true rfl (Or.inr ((findLastUrlIdx_none_iff _).1 hf))
      | some j =>
        refine iff_of_false (by simp) ?_
        rintro (h | hall)
        · cases h
        · obtain ⟨h1, h2, _⟩ := findLastUrlIdx_some_spec _ _ hf
          rw [hall _ (getD_mem_of_lt _ _ h1)] at h2
          cases h2
  · intro c ti u hsome
    rw [hdef] at hsome
    cases hl : addTokens text with
    | nil => rw [hl] at hsome; cases hsome
    | cons a t =>
      rw [hl] at hsome
      simp only [List.isEmpty_cons, Bool.false_eq_true, if_false] at hsome
      cases hf : findLastUrlIdx (a :: t) with
      | none => rw [hf] at hsome; cases hsome
      | some j =>
        rw [hf] at hsome
        simp only [Option.some.injEq, Prod.mk.injEq] at hsome
        obtain ⟨rfl, rfl, rfl⟩ := hsome
        obtain ⟨h1, h2, h3⟩ := findLastUrlIdx_some_spec _ _ hf
        refine ⟨rfl, j, h1, rfl, h2, h3, ?_⟩
        match j with
        | 0 => rfl
        | 1 => rfl
        | j' + 2 => rw [if_pos (by omega)]

/-- Witness for C1 at a concrete input with a hypothesis-bearing
conjunct discharged concretely. -/
theorem parse_add_args_correct_witness :
    parse_add_args "/add Cat T https://a.b" = some ("Cat", "T", "https://a.b") ∧
    ("Cat" = (addTokens "/add Cat T https://a.b").getD 0 "" ∧
      ∃ j, j < (addTokens "/add Cat T https://a.b").length ∧
        "https://a.b" = (addTokens "/add Cat T https://a.b").getD j "" ∧
        isUrlToken "https://a.b" = true ∧
        (∀ k, j < k → k < (addTokens "/add Cat T https://a.b").length →
          isUrlToken ((addTokens "/add Cat T https://a.b").getD k "") = false) ∧
        "T" = String.intercalate " "
          (((addTokens "/add Cat T https://a.b").drop 1).take (j - 1))) :=
  ⟨rfl, (parse_add_args_correct "/add Cat T https://a.b").2.1 "Cat" "T" "https://a.b" rfl⟩

/-- C9: when the only token after the `/add` command is URL-shaped,
`parse_add_args` does not return the sentinel: it returns the URL token as
both the category and the url with an empty title; `/add` then looks up a
category whose name is the URL (and, on the example document, reports it
as an unknown category). -/
theorem parse_add_args_url_only :
    (∀ text t, addTokens text = [t] → isUrlToken t = true →
      parse_add_args text = some (t, "", t)) ∧
    parse_add_args "/add https://example.com/x"
      = some ("https://example.com/x", "", "https://example.com/x") ∧
    add_command "/add https://example.com/x" none "User"
      ⟨some "@chan", some (some 1), [("Videos", ⟨some (some 2), []⟩)]⟩ (fun _ => true)
      = [Event.replied
          "Categoría 'https://example.com/x' no encontrada. Usa /list para ver categorías disponibles."] := by
  refine ⟨?_, by rfl, by rfl⟩
  intro text t hl ht
  rw [parse_add_args_eq, hl]
  simp [findLastUrlIdx, ht]

/-- Witness for C9's hypothesis-bearing conjunct at a concrete input. -/
theorem parse_add_args_url_only_witness :
    parse_add_args "/add http://u.v" = some ("http://u.v", "", "http://u.v") :=
  parse_add_args_url_only.1 "/add http://u.v" "http://u.v" (by rfl) (by rfl)

theorem find?_updateCat (cats : List (String × Category)) (k : String)
    (f : Category → Category) :
    (updateCat cats k f).find? (fun p => p.1 == k)
      = (cats.find? (fun p => p.1 == k)).map (fun p => (p.1, f p.2)) := by
  induction cats with
  | nil => rfl
  | cons a t ih =>
    simp only [updateCat, List.map_cons] at ih ⊢
    by_cases h : (a.1 == k) = true
    · rw [if_pos h,
        @List.find?_cons_of_pos _ (fun p => p.1 == k) (a.1, f a.2) _ h,
        @List.find?_cons_of_pos _ (fun p => p.1 == k) a _ h]
      rfl
    · rw [if_neg h,
        @List.find?_cons_of_neg _ (fun p => p.1 == k) a _ h,
        @List.find?_cons_of_neg _ (fun p => p.1 == k) a _ h, ih]

theorem lookupCat_updateCat (data : CatalogueDocument) (k : String)
    (f : Category → Category) :
    lookupCat { data with categorias := updateCat data.categorias k f } k
      = (lookupCat data k).map f := by
  show ((updateCat data.categorias k f).find? (fun p => p.1 == k)).map Prod.snd
    = ((data.categorias.find? (fun p => p.1 == k)).map Prod.snd).map f
  rw [find?_updateCat]
  cases data.categorias.find? (fun p => p.1 == k) <;> rfl

theorem lookupCat_withAppended (data : CatalogueDocument) (k : String) (e : LinkEntry) :
    lookupCat (withAppended data k e) k = (lookupCat data k).map (appendLink e) :=
  lookupCat_updateCat data k (appendLink e)

@[simp] theorem withAppended_channel (data : CatalogueDocument) (k : String) (e : LinkEntry) :
    (withAppended data k e).channel_username = data.channel_username := rfl

@[simp] theorem withAppended_indice (data : CatalogueDocument) (k : String) (e : LinkEntry) :
    (withAppended data k e).indice_message_id = data.indice_message_id := rfl

@[simp] theorem appendLink_message_id (e : LinkEntry) (c : Category) :
    (appendLink e c).message_id = c.message_id := rfl

@[simp] theorem appendLink_links (e : LinkEntry) (c : Category) :
    (appendLink e c).links = c.links ++ [e] := rfl

/-- C10: with a channel configured, `/add` reads the matched category's
`message_id` by direct key indexing outside any `try`; when the category
record has no `"message_id"` key at all (`c0.message_id = none` in the
model), the handler saves the appended link and then raises an uncaught
`KeyError`: no edit is attempted and no success reply is sent. -/
theorem add_command_missing_message_id_raises
    (raw : String) (username : Option String) (fullName : String)
    (data : CatalogueDocument) (remoteOk : Nat → Bool)
    (category title url cat_key : String) (rest : List String) (c0 : Category)
    (hp : parse_add_args raw = some (category, title, url))
    (hc : category ≠ "") (hu : url ≠ "")
    (hm : findMatches data category = cat_key :: rest)
    (hch : truthyStr data.channel_username = true)
    (hlk : lookupCat data cat_key = some c0)
    (hmid : c0.message_id = none) :
    add_command raw username fullName data remoteOk =
      [Event.saved (withAppended data cat_key (mkEntry title url username fullName)),
       Event.raisedKeyError] := by
  have hlk2 := lookupCat_withAppended data cat_key (mkEntry title url username fullName)
  rw [hlk] at hlk2
  simp only [add_command, hp, hm, hlk2, hch, hmid, Option.map_some]
  simp [hc, hu, hch, hmid]

/-- Witness for C10 at a concrete document and input. -/
theorem add_command_missing_message_id_raises_witness :
    add_command "/add Videos https://e.com/x" none "User"
        ⟨some "@chan", some (some 1), [("Videos", ⟨none, []⟩)]⟩ (fun _ => true)
      = [Event.saved ⟨some "@chan", some (some 1),
          [("Videos", ⟨none, [⟨"https://e.com/x", "https://e.com/x", "User"⟩]⟩)]⟩,
         Event.raisedKeyError] := by
  have h := add_command_missing_message_id_raises "/add Videos https://e.com/x" none "User"
    ⟨some "@chan", some (some 1), [("Videos", ⟨none, []⟩)]⟩ (fun _ => true)
    "Videos" "" "https://e.com/x" "Videos" [] ⟨none, []⟩
    (by rfl) (by decide) (by decide) (by rfl) (by rfl) (by rfl) (by rfl)
  simpa using h

/-- C7: when `/add` parses successfully but no stored category key matches
case-insensitively, the command replies naming the unrecognized category
and performs no save (the persisted document is untouched). -/
theorem add_command_unknown_category
    (raw : String) (username : Option String) (fullName : String)
    (data : CatalogueDocument) (remoteOk : Nat → Bool)
    (category title url : String)
    (hp : parse_add_args raw = some (category, title, url))
    (hc : category ≠ "") (hu : url ≠ "")
    (hm : findMatches data category = []) :
    add_command raw username fullName data remoteOk =
      [Event.replied ("Categoría '" ++ category
        ++ "' no encontrada. Usa /list para ver categorías disponibles.")] ∧
    ∀ d, Event.saved d ∉ add_command raw username fullName data remoteOk := by
  have h1 : add_command raw username fullName data remoteOk =
      [Event.replied ("Categoría '" ++ category
        ++ "' no encontrada. Usa /list para ver categorías disponibles.")] := by
    simp only [add_command, hp]
    simp [hc, hu, hm]
  refine ⟨h1, ?_⟩
  rw [h1]
  simp

/-- Witness for C7 at a concrete document and input. -/
theorem add_command_unknown_category_witness :
    add_command "/add Nope https://x.y" none "User"
        ⟨some "@chan", some (some 1), [("Videos", ⟨some (some 2), []⟩)]⟩ (fun _ => true)
      = [Event.replied
          "Categoría 'Nope' no encontrada. Usa /list para ver categorías disponibles."] ∧
    ∀ d, Event.saved d ∉ add_command "/add Nope https://x.y" none "User"
        ⟨some "@chan", some (some 1), [("Videos", ⟨some (some 2), []⟩)]⟩ (fun _ => true) := by
  have h := add_command_unknown_category "/add Nope https://x.y" none "User"
    ⟨some "@chan", some (some 1), [("Videos", ⟨some (some 2), []⟩)]⟩ (fun _ => true)
    "Nope" "" "https://x.y" (by rfl) (by decide) (by decide) (by rfl)
  simpa using h

/-- C3: when `/add` appends a link with a channel configured (and the
matched category's `message_id` key present), the mutated document is
saved before any edit is attempted; every edit outcome (`remoteOk`) leaves
the trace otherwise identical — failing edits are recorded and do not
abort the command, the appended link is never rolled back, and the success
reply is always sent last. -/
theorem add_command_saves_before_edits
    (raw : String) (username : Option String) (fullName : String)
    (data : CatalogueDocument)
    (category title url cat_key : String) (rest : List String) (c0 : Category)
    (mid : Option Nat)
    (hp : parse_add_args raw = some (category, title, url))
    (hc : category ≠ "") (hu : url ≠ "")
    (hm : findMatches data category = cat_key :: rest)
    (hch : truthyStr data.channel_username = true)
    (hlk : lookupCat data cat_key = some c0)
    (hmid : c0.message_id = some mid) :
    ∀ remoteOk : Nat → Bool,
      add_command raw username fullName data remoteOk =
        Event.saved (withAppended data cat_key (mkEntry title url username fullName)) ::
        Event.editAttempt (data.channel_username.getD "") mid
          (format_category_message cat_key
            (c0.links ++ [mkEntry title url username fullName])) (remoteOk 0) ::
        ((if truthyId data.indice_message_id then
            [Event.editAttempt (data.channel_username.getD "")
              (some (idVal data.indice_message_id))
              (format_index (withAppended data cat_key (mkEntry title url username fullName)))
              (remoteOk 1)]
          else []) ++
          [Event.replied ("Enlace agregado a <b>" ++ cat_key ++ "</b> ✅")]) := by
  intro remoteOk
  have hlk2 := lookupCat_withAppended data cat_key (mkEntry title url username fullName)
  rw [hlk] at hlk2
  simp only [add_command, hp, hm, hlk2, Option.map_some]
  simp [hc, hu, hch, hmid]

/-- Witness for C3: a concrete run in which both edits fail; the appended
document is still saved first and the success reply still sent. -/
theorem add_command_saves_before_edits_witness :
    add_command "/add Videos T https://e.com/x" (some "ana") "Ana F"
        ⟨some "@chan", some (some 5), [("Videos", ⟨some (some 7), []⟩)]⟩ (fun _ => false)
      = [Event.saved ⟨some "@chan", some (some 5),
           [("Videos", ⟨some (some 7), [⟨"T", "https://e.com/x", "ana"⟩]⟩)]⟩,
         Event.editAttempt "@chan" (some 7)
           (format_category_message "Videos" [⟨"T", "https://e.com/x", "ana"⟩]) false,
         Event.editAttempt "@chan" (some 5)
           (format_index ⟨some "@chan", some (some 5),
             [("Videos", ⟨some (some 7), [⟨"T", "https://e.com/x", "ana"⟩]⟩)]⟩) false,
         Event.replied "Enlace agregado a <b>Videos</b> ✅"] := by
  have h := add_command_saves_before_edits "/add Videos T https://e.com/x" (some "ana") "Ana F"
    ⟨some "@chan", some (some 5), [("Videos", ⟨some (some 7), []⟩)]⟩
    "Videos" "T" "https://e.com/x" "Videos" [] ⟨some (some 7), []⟩ (some 7)
    (by rfl) (by decide) (by decide) (by rfl) (by rfl) (by rfl) (by rfl) (fun _ => false)
  simpa [withAppended, updateCat, appendLink, mkEntry, pyAuthor] using h

/-- C2: from a document with a channel set and exactly one category
`"Videos"` with no links, no `indice_message_id` and no category
`message_id`, `ensure_channel_messages` sends exactly two messages — the
index first, then the category message — and records both returned ids in
the saved document; with no channel set it sends nothing, changes nothing,
saves nothing, and only warns. -/
theorem ensure_channel_messages_initializes :
    (∀ (data : CatalogueDocument) (ids : Nat → Nat) (m0 : Option (Option Nat)),
      truthyStr data.channel_username = true →
      truthyId data.indice_message_id = false →
      truthyId m0 = false →
      data.categorias = [("Videos", ⟨m0, []⟩)] →
      ensure_channel_messages ids data =
        ([Event.sent (data.channel_username.getD "") (format_index data) (ids 0),
          Event.sent (data.channel_username.getD "")
            (format_category_message "Videos" []) (ids 1),
          Event.saved { data with indice_message_id := some (some (ids 0)), categorias := [("Videos", ⟨some (some (ids 1)), []⟩)] }],
         { data with indice_message_id := some (some (ids 0)), categorias := [("Videos", ⟨some (some (ids 1)), []⟩)] })) ∧
    (∀ (data : CatalogueDocument) (ids : Nat → Nat),
      truthyStr data.channel_username = false →
      ensure_channel_messages ids data = ([Event.warned], data)) := by
  constructor
  · intro data ids m0 hch hidx hm0 hcats
    simp only [ensure_channel_messages, hch, Bool.not_true, Bool.false_eq_true, if_false,
      hidx, Bool.not_false, if_true, hcats, ensureCats, hm0]
    simp
  · intro data ids hch
    simp [ensure_channel_messages, hch]

/-- Witness for C2 at a concrete document (both conjuncts applied). -/
theorem ensure_channel_messages_initializes_witness :
    ensure_channel_messages (fun k => 100 + k) ⟨some "@chan", none, [("Videos", ⟨none, []⟩)]⟩
      = ([Event.sent "@chan"
            (format_index ⟨some "@chan", none, [("Videos", ⟨none, []⟩)]⟩) 100,
          Event.sent "@chan" (format_category_message "Videos" []) 101,
          Event.saved ⟨some "@chan", some (some 100), [("Videos", ⟨some (some 101), []⟩)]⟩],
         ⟨some "@chan", some (some 100), [("Videos", ⟨some (some 101), []⟩)]⟩) ∧
    ensure_channel_messages (fun k => 100 + k) ⟨none, none, [("Videos", ⟨none, []⟩)]⟩
      = ([Event.warned], ⟨none, none, [("Videos", ⟨none, []⟩)]⟩) := by
  constructor
  · have h := ensure_channel_messages_initializes.1
      ⟨some "@chan", none, [("Videos", ⟨none, []⟩)]⟩ (fun k => 100 + k) none
      (by rfl) (by rfl) (by rfl) (by rfl)
    simpa using h
  · exact ensure_channel_messages_initializes.2
      ⟨none, none, [("Videos", ⟨none, []⟩)]⟩ (fun k => 100 + k) (by rfl)

theorem containsSub_append_left :
    ∀ (x y sub : List Char), containsSub y sub = true → containsSub (x ++ y) sub = true
  | [], _, _, h => h
  | a :: x', y, sub, h => by
    show (sub.isPrefixOf (a :: (x' ++ y)) || containsSub (x' ++ y) sub) = true
    rw [containsSub_append_left x' y sub h, Bool.or_true]

theorem strContains_append_right (a b c : String) (h : strContains b c = true) :
    strContains (a ++ b) c = true := by
  show containsSub (a ++ b).data c.data = true
  rw [String.data_append]
  exact containsSub_append_left _ _ _ h

theorem snd_mem_of_mem_enumFrom {α : Type} :
    ∀ {l : List α} {n : Nat} {p : Nat × α}, p ∈ List.enumFrom n l → p.2 ∈ l
  | [], _, _, h => by cases h
  | a :: t, n, p, h => by
    rcases List.mem_cons.1 h with rfl | h
    · exact List.mem_cons_self a t
    · exact List.mem_cons_of_mem a (snd_mem_of_mem_enumFrom h)

theorem getD_linkLines (links : List LinkEntry) (i : Nat) (h : i < links.length) :
    ((List.enumFrom 1 links).map linkLine).getD i ""
      = linkLine (1 + i, links.getD i default) := by
  rw [List.getD_eq_getElem?_getD, List.getElem?_map, List.getElem?_enumFrom,
    List.getElem?_eq_getElem h, List.getD_eq_getElem?_getD, List.getElem?_eq_getElem h]
  rfl

theorem nlCount_linkLine (p : Nat × LinkEntry)
    (hu : nlCount p.2.url = 0) (ht : nlCount p.2.texto = 0) :
    nlCount (linkLine p) = 0 := by
  have e1 : nlCount ". <a href=\"" = 0 := rfl
  have e2 : nlCount "\">" = 0 := rfl
  have e3 : nlCount "</a>" = 0 := rfl
  have e4 : nlCount (if p.2.texto = "" then p.2.url else p.2.texto) = 0 := by
    by_cases hc : p.2.texto = "" <;> simp [hc, hu, ht]
  show nlCount (toString p.1 ++ ". <a href=\"" ++ p.2.url ++ "\">"
    ++ (if p.2.texto = "" then p.2.url else p.2.texto) ++ "</a>") = 0
  rw [nlCount_append, nlCount_append, nlCount_append, nlCount_append, nlCount_append]
  simp [nlCount_toString_nat, hu, e1, e2, e3, e4]

/-- C5: `format_category_message` on an empty list returns the header
followed by the literal add-link hint (mentioning `/add`); on `M ≥ 1`
links it returns the header followed by `M` lines numbered `1..M` in
stored order, each a hyperlink anchored on the entry's `texto`, falling
back to its `url` when `texto` is empty; with newline-free entries the
whole text has exactly `M + 1` newlines after the (newline-free part of
the) header. -/
theorem format_category_message_correct (cat_name : String) (links : List LinkEntry) :
    (links = [] →
      format_category_message cat_name links
        = "📎 <b>" ++ pyUpper cat_name ++ "</b> (" ++ toString links.length
          ++ " enlaces)\n\n" ++ "_No hay enlaces aún. Agrega alguno con_ /add" ∧
      strContains (format_category_message cat_name links) "/add" = true) ∧
    (links ≠ [] →
      ∃ ls : List String,
        format_category_message cat_name links
          = "📎 <b>" ++ pyUpper cat_name ++ "</b> (" ++ toString links.length
            ++ " enlaces)\n\n" ++ String.intercalate "\n" ls ∧
        ls.length = links.length ∧
        (∀ i, i < links.length →
          ls.getD i "" = toString (i + 1) ++ ". <a href=\""
            ++ (links.getD i default).url ++ "\">"
            ++ (if (links.getD i default).texto = "" then (links.getD i default).url
                else (links.getD i default).texto) ++ "</a>") ∧
        ((∀ e ∈ links, nlCount e.url = 0 ∧ nlCount e.texto = 0) →
          nlCount (format_category_message cat_name links)
            = nlCount (pyUpper cat_name) + links.length + 1)) := by
  constructor
  · rintro rfl
    refine ⟨rfl, ?_⟩
    have h : strContains (("📎 <b>" ++ pyUpper cat_name ++ "</b> ("
        ++ toString ([] : List LinkEntry).length ++ " enlaces)\n\n")
        ++ "_No hay enlaces aún. Agrega alguno con_ /add") "/add" = true :=
      strContains_append_right _ _ _ (by rfl)
    exact h
  · intro hne
    obtain ⟨a, t, rfl⟩ : ∃ a t, links = a :: t := by
      cases links with
      | nil => exact absurd rfl hne
      | cons a t => exact ⟨a, t, rfl⟩
    refine ⟨(List.enumFrom 1 (a :: t)).map linkLine, rfl, ?_, ?_, ?_⟩
    · simp [List.enumFrom_length]
    · intro i hi
      rw [getD_linkLines _ _ hi]
      simp [linkLine, Nat.add_comm]
    · intro hno
      have hlen : (List.enumFrom 1 (a :: t)).map linkLine
          = linkLine (1, a) :: (List.enumFrom 2 t).map linkLine := rfl
      have hls : ∀ x ∈ (List.enumFrom 1 (a :: t)).map linkLine, nlCount x = 0 := by
        intro x hx
        obtain ⟨p, hp, rfl⟩ := List.mem_map.1 hx
        have h2 := snd_mem_of_mem_enumFrom hp
        exact nlCount_linkLine p (hno _ h2).1 (hno _ h2).2
      have hform : format_category_message cat_name (a :: t)
          = ("📎 <b>" ++ pyUpper cat_name ++ "</b> (" ++ toString (a :: t).length
              ++ " enlaces)\n\n")
            ++ String.intercalate "\n" ((List.enumFrom 1 (a :: t)).map linkLine) := rfl
      have hh : nlCount ("📎 <b>" ++ pyUpper cat_name ++ "</b> ("
          ++ toString (a :: t).length ++ " enlaces)\n\n")
          = nlCount (pyUpper cat_name) + 2 := by
        have e1 : nlCount "📎 <b>" = 0 := rfl
        have e2 : nlCount "</b> (" = 0 := rfl
        have e3 : nlCount " enlaces)\n\n" = 2 := rfl
        rw [nlCount_append, nlCount_append, nlCount_append, nlCount_append,
          nlCount_toString_nat, e1, e2, e3]
        omega
      have hsum : (((List.enumFrom 2 t).map linkLine).map nlCount).sum = 0 := by
        apply List.sum_eq_zero
        intro y hy
        obtain ⟨x, hx, rfl⟩ := List.mem_map.1 hy
        exact hls x (by rw [hlen]; exact List.mem_cons_of_mem _ hx)
      have hz0 : nlCount (linkLine (1, a)) = 0 :=
        hls _ (by rw [hlen]; exact List.mem_cons_self _ _)
      have hlen2 : ((List.enumFrom 2 t).map linkLine).length = t.length := by
        simp [List.enumFrom_length]
      rw [hform, nlCount_append, hh, hlen, nlCount_intercalate_nl, hz0, hsum, hlen2]
      simp only [List.length_cons]
      omega

/-- Witness for C5 at concrete inputs (both hypothesis-bearing conjuncts). -/
theorem format_category_message_correct_witness :
    (format_category_message "Diseño" []
        = "📎 <b>" ++ pyUpper "Diseño" ++ "</b> (" ++ toString (0 : Nat)
          ++ " enlaces)\n\n" ++ "_No hay enlaces aún. Agrega alguno con_ /add" ∧
      strContains (format_category_message "Diseño" []) "/add" = true) ∧
    ∃ ls : List String,
      format_category_message "Diseño" [⟨"", "https://u.v", "a"⟩]
        = "📎 <b>" ++ pyUpper "Diseño" ++ "</b> (" ++ toString (1 : Nat)
          ++ " enlaces)\n\n" ++ String.intercalate "\n" ls ∧
      ls.length = 1 ∧
      ls.getD 0 "" = toString (1 : Nat) ++ ". <a href=\"" ++ "https://u.v" ++ "\">"
        ++ "https://u.v" ++ "</a>" ∧
      nlCount (format_category_message "Diseño" [⟨"", "https://u.v", "a"⟩])
        = nlCount (pyUpper "Diseño") + 2 := by
  have h1 := (format_category_message_correct "Diseño" []).1 rfl
  have h2 := (format_category_message_correct "Diseño" [⟨"", "https://u.v", "a"⟩]).2
    (by decide)
  obtain ⟨ls, he, hl, hg, hc⟩ := h2
  refine ⟨h1, ls, he, by simpa using hl, ?_, ?_⟩
  · have := hg 0 (by decide)
    simpa using this
  · have := hc (by intro e he'; simp at he'; subst he'; exact ⟨rfl, rfl⟩)
    simpa using this

theorem getD_indexLines (ch : Option String) (cats : List (String × Category)) (i : Nat)
    (h : i < cats.length) :
    (cats.map (indexLine ch)).getD i "" = indexLine ch (cats.getD i default) := by
  rw [List.getD_eq_getElem?_getD, List.getElem?_map, List.getElem?_eq_getElem h,
    List.getD_eq_getElem?_getD, List.getElem?_eq_getElem h]
  rfl

theorem nlCount_indexLine (ch : Option String) (p : String × Category)
    (hname : nlCount p.1 = 0) (hch : nlCount (ch.getD "") = 0) :
    nlCount (indexLine ch p) = 0 := by
  have e1 : nlCount "• <b>" = 0 := rfl
  have e2 : nlCount "</b> (" = 0 := rfl
  have e3 : nlCount ")" = 0 := rfl
  have ej : nlCount (if (truthyStr ch && truthyId p.2.message_id) = true then
      " — <a href=\"https://t.me/" ++ lstripAt (ch.getD "") ++ "/"
        ++ toString (idVal p.2.message_id) ++ "\">ir</a>" else "") = 0 := by
    split
    · have f1 : nlCount " — <a href=\"https://t.me/" = 0 := rfl
      have f2 : nlCount "/" = 0 := rfl
      have f3 : nlCount "\">ir</a>" = 0 := rfl
      rw [nlCount_append, nlCount_append, nlCount_append, nlCount_append,
        nlCount_toString_nat, nlCount_lstripAt _ hch, f1, f2, f3]
    · rfl
  show nlCount ("• <b>" ++ p.1 ++ "</b> (" ++ toString p.2.links.length ++ ")"
    ++ (if (truthyStr ch && truthyId p.2.message_id) = true then
      " — <a href=\"https://t.me/" ++ lstripAt (ch.getD "") ++ "/"
        ++ toString (idVal p.2.message_id) ++ "\">ir</a>" else "")) = 0
  rw [nlCount_append, nlCount_append, nlCount_append, nlCount_append, nlCount_append]
  simp only [nlCount_toString_nat, e1, e2, e3, hname]
  simpa using ej

/-- C4: `format_index` is the newline-join of the index header and one
line per category, in stored order; line `i` shows category `i`'s name
and link count, followed by a jump hyperlink exactly when both
`channel_username` and that category's `message_id` are (truthily) set;
for newline-free names and channel the text has exactly `N + 1` newlines
(header plus `N` category lines). -/
theorem format_index_correct (data : CatalogueDocument) :
    ∃ ls : List String,
      format_index data = String.intercalate "\n" ("📚 <b>ÍNDICE</b>\n" :: ls) ∧
      ls.length = data.categorias.length ∧
      (∀ i, i < data.categorias.length →
        ∃ jump : String,
          ls.getD i "" = "• <b>" ++ (data.categorias.getD i default).1 ++ "</b> ("
            ++ toString (data.categorias.getD i default).2.links.length ++ ")" ++ jump ∧
          ((truthyStr data.channel_username
              && truthyId (data.categorias.getD i default).2.message_id) = true →
            jump = " — <a href=\"https://t.me/"
              ++ lstripAt (data.channel_username.getD "") ++ "/"
              ++ toString (idVal (data.categorias.getD i default).2.message_id)
              ++ "\">ir</a>") ∧
          ((truthyStr data.channel_username
              && truthyId (data.categorias.getD i default).2.message_id) = false →
            jump = "")) ∧
      ((∀ p ∈ data.categorias, nlCount p.1 = 0) →
        nlCount (data.channel_username.getD "") = 0 →
        nlCount (format_index data) = data.categorias.length + 1) := by
  refine ⟨data.categorias.map (indexLine data.channel_username), rfl, by simp, ?_, ?_⟩
  · intro i hi
    rw [getD_indexLines _ _ _ hi]
    refine ⟨if (truthyStr data.channel_username
        && truthyId (data.categorias.getD i default).2.message_id) = true then
        " — <a href=\"https://t.me/" ++ lstripAt (data.channel_username.getD "") ++ "/"
          ++ toString (idVal (data.categorias.getD i default).2.message_id)
          ++ "\">ir</a>" else "", rfl, ?_, ?_⟩
    · intro h
      rw [if_pos h]
    · intro h
      rw [if_neg]
      rw [h]
      simp
  · intro hnames hch
    have hform : format_index data
        = String.intercalate "\n" ("📚 <b>ÍNDICE</b>\n"
            :: data.categorias.map (indexLine data.channel_username)) := rfl
    have hhdr : nlCount "📚 <b>ÍNDICE</b>\n" = 1 := rfl
    have hsum : ((data.categorias.map (indexLine data.channel_username)).map nlCount).sum
        = 0 := by
      apply List.sum_eq_zero
      intro y hy
      obtain ⟨x, hx, rfl⟩ := List.mem_map.1 hy
      obtain ⟨p, hp, rfl⟩ := List.mem_map.1 hx
      exact nlCount_indexLine _ p (hnames p hp) hch
    rw [hform, nlCount_intercalate_nl, hhdr, hsum]
    simp
    omega

/-- Witness for C4 at a concrete two-category document, with the
hypothesis-bearing inner conjuncts discharged concretely. -/
theorem format_index_correct_witness :
    ∃ ls : List String,
      format_index ⟨some "@chan", some (some 5), [("Diseño", ⟨some (some 7), []⟩), ("Videos", ⟨none, []⟩)]⟩
        = String.intercalate "\n" ("📚 <b>ÍNDICE</b>\n" :: ls) ∧
      ls.length = 2 ∧
      nlCount (format_index ⟨some "@chan", some (some 5), [("Diseño", ⟨some (some 7), []⟩), ("Videos", ⟨none, []⟩)]⟩) = 3 := by
  obtain ⟨ls, he, hl, _, hc⟩ := format_index_correct
    ⟨some "@chan", some (some 5), [("Diseño", ⟨some (some 7), []⟩), ("Videos", ⟨none, []⟩)]⟩
  refine ⟨ls, he, by simpa using hl, ?_⟩
  have := hc (by
      intro p hp
      simp only [List.mem_cons, List.not_mem_nil, or_false] at hp
      rcases hp with rfl | rfl <;> rfl)
    (by rfl)
  simpa using this

theorem filter_head?_eq_find? {α : Type} (p : α → Bool) :
    ∀ l : List α, (l.filter p).head? = l.find? p
  | [] => rfl
  | a :: t => by
    by_cases h : p a = true
    · rw [List.filter_cons_of_pos h, @List.find?_cons_of_pos _ p a t h]
      rfl
    · rw [List.filter_cons_of_neg h, @List.find?_cons_of_neg _ p a t h]
      exact filter_head?_eq_find? p t

/-- C6 counterexample: the category message rendered for the stored key
`"Diseño"` does not display the key's original casing — the header shows
`"DISEÑO"` (the uppercased key) and the string `"Diseño"` occurs nowhere
in it, refuting the claim that every rendered output (in particular the
category message header) displays the stored key's original casing. -/
theorem category_header_casing_counterexample :
    strContains (format_category_message "Diseño" []) "Diseño" = false ∧
    strContains (format_category_message "Diseño" []) "DISEÑO" = true := by
  exact ⟨by rfl, by rfl⟩

/-- C6 (amended): category lookup on `/add` is case-insensitive (lowered
names compared; first match in stored order), and the stored key's
original casing is what the index line and the `/add` confirmation reply
display, while the category message header displays the stored key
uppercased. -/
theorem category_casing_correct :
    (∀ (data : CatalogueDocument) (n1 n2 : String), pyLower n1 = pyLower n2 →
      findMatches data n1 = findMatches data n2) ∧
    (∀ (data : CatalogueDocument) (n : String),
      (findMatches data n).head?
        = (data.categorias.map Prod.fst).find? (fun c => pyLower c == pyLower n)) ∧
    findMatches ⟨some "@chan", some (some 5), [("Diseño", ⟨some (some 7), []⟩)]⟩ "diseño"
      = ["Diseño"] ∧
    findMatches ⟨some "@chan", some (some 5), [("Diseño", ⟨some (some 7), []⟩)]⟩ "DISEÑO"
      = ["Diseño"] ∧
    (∀ (ch : Option String) (p : String × Category),
      strContains (indexLine ch p) p.1 = true) ∧
    (add_command "/add DISEÑO https://e.com/x" none "U"
        ⟨some "@chan", some (some 5), [("Diseño", ⟨some (some 7), []⟩)]⟩
        (fun _ => true)).getLast?
      = some (Event.replied "Enlace agregado a <b>Diseño</b> ✅") ∧
    (∀ (name : String) (links : List LinkEntry), ∃ rest : List Char,
      (format_category_message name links).data
        = "📎 <b>".data ++ (pyUpper name).data ++ rest) := by
  refine ⟨?_, ?_, by rfl, by rfl, ?_, by rfl, ?_⟩
  · intro data n1 n2 h
    unfold findMatches
    rw [h]
  · intro data n
    exact filter_head?_eq_find? _ _
  · intro ch p
    have hdata : (indexLine ch p).data
        = "• <b>".data ++ p.1.data
          ++ ("</b> (".data ++ (toString p.2.links.length).data ++ ")".data
            ++ (if (truthyStr ch && truthyId p.2.message_id) = true then
              " — <a href=\"https://t.me/" ++ lstripAt (ch.getD "") ++ "/"
                ++ toString (idVal p.2.message_id) ++ "\">ir</a>" else "").data) := by
      simp [indexLine, String.data_append, List.append_assoc]
    show containsSub (indexLine ch p).data p.1.data = true
    rw [hdata]
    exact containsSub_of_append _ _ _
  · intro name links
    cases links with
    | nil =>
      refine ⟨("</b> (" ++ toString (0 : Nat) ++ " enlaces)\n\n"
        ++ "_No hay enlaces aún. Agrega alguno con_ /add").data, ?_⟩
      simp [format_category_message, String.data_append, List.append_assoc]
    | cons a t =>
      refine ⟨("</b> (" ++ toString (a :: t).length ++ " enlaces)\n\n"
        ++ String.intercalate "\n" ((List.enumFrom 1 (a :: t)).map linkLine)).data, ?_⟩
      have hne : (a :: t).isEmpty = false := rfl
      simp [format_category_message, hne, String.data_append, List.append_assoc]

/-- Witness for C6's hypothesis-bearing conjunct at concrete inputs. -/
theorem category_casing_correct_witness :
    findMatches ⟨some "@chan", some (some 5), [("Diseño", ⟨some (some 7), []⟩)]⟩ "diseño"
      = findMatches ⟨some "@chan", some (some 5), [("Diseño", ⟨some (some 7), []⟩)]⟩ "DISEÑO" :=
  category_casing_correct.1
    ⟨some "@chan", some (some 5), [("Diseño", ⟨some (some 7), []⟩)]⟩
    "diseño" "DISEÑO" (by rfl)

/-! ## Append-only / monotone-id invariants (C8) -/

/-- A message-id field evolves legally: either unchanged, or it was not
(truthily) set and becomes an integer.  Once truthily set it is never
cleared or overwritten. -/
def msgIdEvolves (before after : Option (Option Nat)) : Prop :=
  after = before ∨ (truthyId before = false ∧ ∃ n, after = some (some n))

/-- A document evolves legally in one operation: the channel is untouched,
the index id and every category's id evolve per `msgIdEvolves`, the
category names and order are untouched, and every category's link list
only grows by appending at the end. -/
def docEvolves (d d' : CatalogueDocument) : Prop :=
  d'.channel_username = d.channel_username ∧
  msgIdEvolves d.indice_message_id d'.indice_message_id ∧
  d'.categorias.length = d.categorias.length ∧
  ∀ i, i < d.categorias.length →
    (d'.categorias.getD i default).1 = (d.categorias.getD i default).1 ∧
    msgIdEvolves (d.categorias.getD i default).2.message_id
      (d'.categorias.getD i default).2.message_id ∧
    ∃ t, (d'.categorias.getD i default).2.links
      = (d.categorias.getD i default).2.links ++ t

theorem msgIdEvolves_refl (m : Option (Option Nat)) : msgIdEvolves m m := Or.inl rfl

theorem getD_map_of_lt {α β : Type} [Inhabited α] [Inhabited β]
    (g : α → β) (l : List α) (i : Nat) (h : i < l.length) :
    (l.map g).getD i default = g (l.getD i default) := by
  rw [List.getD_eq_getElem?_getD, List.getElem?_map, List.getElem?_eq_getElem h,
    List.getD_eq_getElem?_getD, List.getElem?_eq_getElem h]
  rfl

theorem docEvolves_withAppended (data : CatalogueDocument) (k : String) (e : LinkEntry) :
    docEvolves data (withAppended data k e) := by
  refine ⟨rfl, msgIdEvolves_refl _, by simp [withAppended, updateCat], ?_⟩
  intro i hi
  have hgd : (withAppended data k e).categorias.getD i default
      = (if ((data.categorias.getD i default).1 == k) = true
         then ((data.categorias.getD i default).1,
           appendLink e (data.categorias.getD i default).2)
         else data.categorias.getD i default) := by
    show (updateCat data.categorias k (appendLink e)).getD i default = _
    rw [updateCat, getD_map_of_lt _ _ _ hi]
  rw [hgd]
  by_cases h : ((data.categorias.getD i default).1 == k) = true
  · rw [if_pos h]
    exact ⟨rfl, msgIdEvolves_refl _, [e], rfl⟩
  · rw [if_neg h]
    exact ⟨rfl, msgIdEvolves_refl _, [], (List.append_nil _).symm⟩

theorem refreshCats_spec (channel : String) (remoteOk : Nat → Bool) (ids : Nat → Nat) :
    ∀ (k : Nat) (cats : List (String × Category)),
      (refreshCats channel remoteOk ids k cats).1.length = cats.length ∧
      (∀ i, i < cats.length →
        ((refreshCats channel remoteOk ids k cats).1.getD i default).1
          = (cats.getD i default).1 ∧
        msgIdEvolves (cats.getD i default).2.message_id
          ((refreshCats channel remoteOk ids k cats).1.getD i default).2.message_id ∧
        ((refreshCats channel remoteOk ids k cats).1.getD i default).2.links
          = (cats.getD i default).2.links) ∧
      (∀ d', Event.saved d' ∉ (refreshCats channel remoteOk ids k cats).2.1)
  | _, [] => ⟨rfl, fun i hi => absurd hi (by simp), fun d' h => by simp [refreshCats] at h⟩
  | k, (cat, info) :: rest => by
    obtain ⟨ih1, ih2, ih3⟩ := refreshCats_spec channel remoteOk ids (k + 1) rest
    by_cases h1 : truthyId info.message_id = true
    · have hr : refreshCats channel remoteOk ids k ((cat, info) :: rest)
          = ((cat, info) :: (refreshCats channel remoteOk ids (k + 1) rest).1,
             Event.editAttempt channel (some (idVal info.message_id))
               (format_category_message cat info.links) (remoteOk k)
               :: (refreshCats channel remoteOk ids (k + 1) rest).2.1,
             (refreshCats channel remoteOk ids (k + 1) rest).2.2) := by
        simp [refreshCats, h1]
      rw [hr]
      refine ⟨by simpa using ih1, ?_, ?_⟩
      · intro i hi
        match i with
        | 0 => exact ⟨rfl, msgIdEvolves_refl _, rfl⟩
        | i' + 1 =>
          simp only [List.getD_cons_succ]
          exact ih2 i' (by simpa using hi)
      · intro d' hd'
        rcases List.mem_cons.1 hd' with h | h
        · cases h
        · exact ih3 d' h
    · have h1' : truthyId info.message_id = false := by simpa using h1
      by_cases h2 : remoteOk k = true
      · have hr : refreshCats channel remoteOk ids k ((cat, info) :: rest)
            = ((cat, { info with message_id := some (some (ids k)) })
                 :: (refreshCats channel remoteOk ids (k + 1) rest).1,
               Event.sent channel (format_category_message cat info.links) (ids k)
                 :: (refreshCats channel remoteOk ids (k + 1) rest).2.1,
               (refreshCats channel remoteOk ids (k + 1) rest).2.2) := by
          simp [refreshCats, h1, h2]
        rw [hr]
        refine ⟨by simpa using ih1, ?_, ?_⟩
        · intro i hi
          match i with
          | 0 => exact ⟨rfl, Or.inr ⟨h1', ids k, rfl⟩, rfl⟩
          | i' + 1 =>
            simp only [List.getD_cons_succ]
            exact ih2 i' (by simpa using hi)
        · intro d' hd'
          rcases List.mem_cons.1 hd' with h | h
          · cases h
          · exact ih3 d' h
      · have hr : refreshCats channel remoteOk ids k ((cat, info) :: rest)
            = ((cat, info) :: (refreshCats channel remoteOk ids (k + 1) rest).1,
               Event.sendFailed channel (format_category_message cat info.links)
                 :: (refreshCats channel remoteOk ids (k + 1) rest).2.1,
               (refreshCats channel remoteOk ids (k + 1) rest).2.2) := by
          simp [refreshCats, h1, h2]
        rw [hr]
        refine ⟨by simpa using ih1, ?_, ?_⟩
        · intro i hi
          match i with
          | 0 => exact ⟨rfl, msgIdEvolves_refl _, rfl⟩
          | i' + 1 =>
            simp only [List.getD_cons_succ]
            exact ih2 i' (by simpa using hi)
        · intro d' hd'
          rcases List.mem_cons.1 hd' with h | h
          · cases h
          · exact ih3 d' h

theorem ensureCats_spec (channel : String) (ids : Nat → Nat) :
    ∀ (k : Nat) (cats : List (String × Category)),
      (ensureCats channel ids k cats).1.length = cats.length ∧
      (∀ i, i < cats.length →
        ((ensureCats channel ids k cats).1.getD i default).1
          = (cats.getD i default).1 ∧
        msgIdEvolves (cats.getD i default).2.message_id
          ((ensureCats channel ids k cats).1.getD i default).2.message_id ∧
        ((ensureCats channel ids k cats).1.getD i default).2.links
          = (cats.getD i default).2.links) ∧
      (∀ d', Event.saved d' ∉ (ensureCats channel ids k cats).2.1)
  | _, [] => ⟨rfl, fun i hi => absurd hi (by simp), fun d' h => by simp [ensureCats] at h⟩
  | k, (cat, info) :: rest => by
    by_cases h1 : truthyId info.message_id = true
    · obtain ⟨ih1, ih2, ih3⟩ := ensureCats_spec channel ids k rest
      have hr : ensureCats channel ids k ((cat, info) :: rest)
          = ((cat, info) :: (ensureCats channel ids k rest).1,
             (ensureCats channel ids k rest).2.1,
             (ensureCats channel ids k rest).2.2) := by
        simp [ensureCats, h1]
      rw [hr]
      refine ⟨by simpa using ih1, ?_, ?_⟩
      · intro i hi
        match i with
        | 0 => exact ⟨rfl, msgIdEvolves_refl _, rfl⟩
        | i' + 1 =>
          simp only [List.getD_cons_succ]
          exact ih2 i' (by simpa using hi)
      · exact ih3
    · obtain ⟨ih1, ih2, ih3⟩ := ensureCats_spec channel ids (k + 1) rest
      have h1' : truthyId info.message_id = false := by simpa using h1
      have hr : ensureCats channel ids k ((cat, info) :: rest)
          = ((cat, { info with message_id := some (some (ids k)) })
               :: (ensureCats channel ids (k + 1) rest).1,
             Event.sent channel (format_category_message cat info.links) (ids k)
               :: (ensureCats channel ids (k + 1) rest).2.1, true) := by
        simp [ensureCats, h1]
      rw [hr]
      refine ⟨by simpa using ih1, ?_, ?_⟩
      · intro i hi
        match i with
        | 0 => exact ⟨rfl, Or.inr ⟨h1', ids k, rfl⟩, rfl⟩
        | i' + 1 =>
          simp only [List.getD_cons_succ]
          exact ih2 i' (by simpa using hi)
      · intro d' hd'
        rcases List.mem_cons.1 hd' with h | h
        · cases h
        · exact ih3 d' h

theorem saved_mem_add_command (raw : String) (username : Option String) (fullName : String)
    (data : CatalogueDocument) (remoteOk : Nat → Bool) (d' : CatalogueDocument)
    (h : Event.saved d' ∈ add_command raw username fullName data remoteOk) :
    ∃ cat_key e, d' = withAppended data cat_key e := by
  cases hp : parse_add_args raw with
  | none =>
    simp only [add_command, hp] at h
    simp at h
  | some trip =>
    obtain ⟨category, title, url⟩ := trip
    simp only [add_command, hp] at h
    by_cases hcu : (category = "" || url = "") = true
    · rw [if_pos hcu] at h
      simp at h
    · rw [if_neg hcu] at h
      cases hm : findMatches data category with
      | nil =>
        rw [hm] at h
        simp at h
      | cons cat_key rest =>
        rw [hm] at h
        simp only [List.mem_cons] at h
        rcases h with heq | hmem
        · injection heq with h2
          exact ⟨cat_key, mkEntry title url username fullName, h2⟩
        · exfalso
          split at hmem
          · split at hmem
            · simp at hmem
            · split at hmem
              · simp at hmem
              · simp only [List.mem_cons, List.mem_append] at hmem
                rcases hmem with (h1 | h2) | (h3 | h4)
                · cases h1
                · split at h2 <;> simp at h2
                · cases h3
                · cases h4
          · simp at hmem

/-- C8: across `/add`, `/refresh`, and startup reconciliation, every
document the program saves (and the final in-memory document of the
startup reconciliation) evolves append-only from the loaded one: the
channel and category names/order are untouched, `indice_message_id` and
each category's `message_id` are only set when not already (truthily) set
and never cleared or overwritten, and each category's link list only
grows by appending at the end. -/
theorem append_only_invariants :
    (∀ (raw : String) (username : Option String) (fullName : String)
        (data : CatalogueDocument) (remoteOk : Nat → Bool) (d' : CatalogueDocument),
      Event.saved d' ∈ add_command raw username fullName data remoteOk →
      docEvolves data d') ∧
    (∀ (data : CatalogueDocument) (remoteOk : Nat → Bool) (ids : Nat → Nat)
        (d' : CatalogueDocument),
      Event.saved d' ∈ refresh_command data remoteOk ids →
      docEvolves data d') ∧
    (∀ (ids : Nat → Nat) (data : CatalogueDocument),
      docEvolves data (ensure_channel_messages ids data).2 ∧
      ∀ d', Event.saved d' ∈ (ensure_channel_messages ids data).1 →
        d' = (ensure_channel_messages ids data).2) := by
  refine ⟨?_, ?_, ?_⟩
  · intro raw username fullName data remoteOk d' h
    obtain ⟨cat_key, e, rfl⟩ := saved_mem_add_command raw username fullName data remoteOk d' h
    exact docEvolves_withAppended data cat_key e
  · intro data remoteOk ids d' h
    cases hch : truthyStr data.channel_username with
    | false =>
      simp only [refresh_command, hch] at h
      simp at h
    | true =>
      simp only [refresh_command, hch, Bool.not_true, Bool.false_eq_true, if_false] at h
      obtain ⟨hlen, hcats, hnosave⟩ :=
        refreshCats_spec (data.channel_username.getD "") remoteOk ids 0 data.categorias
      have hd : ∀ idx' : Option (Option Nat), msgIdEvolves data.indice_message_id idx' →
          docEvolves data ⟨data.channel_username, idx',
            (refreshCats (data.channel_username.getD "") remoteOk ids 0 data.categorias).1⟩ := by
        intro idx' hidx'
        refine ⟨rfl, hidx', by simpa using hlen, ?_⟩
        intro i hi
        obtain ⟨h1, h2, h3⟩ := hcats i hi
        exact ⟨h1, h2, [], by rw [h3, List.append_nil]⟩
      by_cases hidx : truthyId data.indice_message_id = true
      · rw [if_pos hidx] at h
        rcases List.mem_append.1 h with h1 | h2
        · rcases List.mem_append.1 h1 with h3 | h4
          · exact absurd h3 (hnosave d')
          · simp at h4
        · simp only [List.mem_cons] at h2
          rcases h2 with heq | h5
          · injection heq with h6
            rw [h6]
            exact hd data.indice_message_id (msgIdEvolves_refl _)
          · simp at h5
      · rw [if_neg hidx] at h
        have hidx' : truthyId data.indice_message_id = false := by
          simpa using hidx
        by_cases hok : remoteOk (refreshCats (data.channel_username.getD "") remoteOk ids 0
            data.categorias).2.2 = true
        · rw [if_pos hok] at h
          rcases List.mem_append.1 h with h1 | h2
          · rcases List.mem_append.1 h1 with h3 | h4
            · exact absurd h3 (hnosave d')
            · simp at h4
          · simp only [List.mem_cons] at h2
            rcases h2 with heq | h5
            · injection heq with h6
              rw [h6]
              exact hd _ (Or.inr ⟨hidx', _, rfl⟩)
            · simp at h5
        · rw [if_neg hok] at h
          rcases List.mem_append.1 h with h1 | h2
          · rcases List.mem_append.1 h1 with h3 | h4
            · exact absurd h3 (hnosave d')
            · simp at h4
          · simp only [List.mem_cons] at h2
            rcases h2 with heq | h5
            · injection heq with h6
              rw [h6]
              exact hd data.indice_message_id (msgIdEvolves_refl _)
            · simp at h5
  · intro ids data
    cases hch : truthyStr data.channel_username with
    | false =>
      have he : ensure_channel_messages ids data = ([Event.warned], data) := by
        simp [ensure_channel_messages, hch]
      rw [he]
      refine ⟨⟨rfl, msgIdEvolves_refl _, rfl, ?_⟩, ?_⟩
      · intro i hi
        exact ⟨rfl, msgIdEvolves_refl _, [], (List.append_nil _).symm⟩
      · intro d' h
        simp at h
    | true =>
      by_cases hidx : truthyId data.indice_message_id = true
      · obtain ⟨hlen, hcats, hnosave⟩ :=
          ensureCats_spec (data.channel_username.getD "") ids 0 data.categorias
        have he : ensure_channel_messages ids data
            = ((ensureCats (data.channel_username.getD "") ids 0 data.categorias).2.1
                ++ (if (ensureCats (data.channel_username.getD "") ids 0 data.categorias).2.2
                    then [Event.saved ⟨data.channel_username, data.indice_message_id,
                      (ensureCats (data.channel_username.getD "") ids 0 data.categorias).1⟩]
                    else []),
               ⟨data.channel_username, data.indice_message_id,
                 (ensureCats (data.channel_username.getD "") ids 0 data.categorias).1⟩) := by
          simp [ensure_channel_messages, hch, hidx]
        rw [he]
        constructor
        · refine ⟨rfl, msgIdEvolves_refl _, by simpa using hlen, ?_⟩
          intro i hi
          obtain ⟨h1, h2, h3⟩ := hcats i hi
          exact ⟨h1, h2, [], by rw [h3, List.append_nil]⟩
        · intro d' h
          rcases List.mem_append.1 h with h1 | h2
          · exact absurd h1 (hnosave d')
          · by_cases hmod : (ensureCats (data.channel_username.getD "") ids 0
                data.categorias).2.2 = true
            · rw [if_pos hmod] at h2
              simp only [List.mem_cons] at h2
              rcases h2 with heq | h5
              · cases heq
                rfl
              · simp at h5
            · rw [if_neg hmod] at h2
              simp at h2
      · obtain ⟨hlen, hcats, hnosave⟩ :=
          ensureCats_spec (data.channel_username.getD "") ids 1 data.categorias
        have hidx' : truthyId data.indice_message_id = false := by simpa using hidx
        have he : ensure_channel_messages ids data
            = (Event.sent (data.channel_username.getD "") (format_index data) (ids 0)
                :: ((ensureCats (data.channel_username.getD "") ids 1 data.categorias).2.1
                  ++ [Event.saved ⟨data.channel_username, some (some (ids 0)),
                    (ensureCats (data.channel_username.getD "") ids 1 data.categorias).1⟩]),
               ⟨data.channel_username, some (some (ids 0)),
                 (ensureCats (data.channel_username.getD "") ids 1 data.categorias).1⟩) := by
          simp [ensure_channel_messages, hch, hidx]
        rw [he]
        constructor
        · refine ⟨rfl, Or.inr ⟨hidx', ids 0, rfl⟩, by simpa using hlen, ?_⟩
          intro i hi
          obtain ⟨h1, h2, h3⟩ := hcats i hi
          exact ⟨h1, h2, [], by rw [h3, List.append_nil]⟩
        · intro d' h
          simp only [List.mem_cons] at h
          rcases h with heq | h2
          · cases heq
          · rcases List.mem_append.1 h2 with h3 | h4
            · exact absurd h3 (hnosave d')
            · simp only [List.mem_cons] at h4
              rcases h4 with heq | h5
              · cases heq
                rfl
              · simp at h5

/-- Witness for C8: each hypothesis-bearing conjunct applied at a
concrete operation run. -/
theorem append_only_invariants_witness :
    docEvolves ⟨some "@chan", some (some 5), [("Videos", ⟨some (some 7), []⟩)]⟩
      ⟨some "@chan", some (some 5),
        [("Videos", ⟨some (some 7), [⟨"T", "https://e.com/x", "U"⟩]⟩)]⟩ ∧
    docEvolves ⟨some "@chan", none, [("Videos", ⟨none, []⟩)]⟩
      ⟨some "@chan", some (some 101), [("Videos", ⟨some (some 100), []⟩)]⟩ ∧
    docEvolves ⟨some "@chan", none, [("Videos", ⟨none, []⟩)]⟩
      (ensure_channel_messages (fun k => 100 + k)
        ⟨some "@chan", none, [("Videos", ⟨none, []⟩)]⟩).2 := by
  refine ⟨?_, ?_, ?_⟩
  · have h := append_only_invariants.1 "/add Videos T https://e.com/x" (some "U") "U"
      ⟨some "@chan", some (some 5), [("Videos", ⟨some (some 7), []⟩)]⟩ (fun _ => true)
      ⟨some "@chan", some (some 5),
        [("Videos", ⟨some (some 7), [⟨"T", "https://e.com/x", "U"⟩]⟩)]⟩
      (by decide)
    exact h
  · have h := append_only_invariants.2.1
      ⟨some "@chan", none, [("Videos", ⟨none, []⟩)]⟩ (fun _ => true) (fun k => 100 + k)
      ⟨some "@chan", some (some 101), [("Videos", ⟨some (some 100), []⟩)]⟩
      (by decide)
    exact h
  · exact (append_only_invariants.2.2 (fun k => 100 + k)
      ⟨some "@chan", none, [("Videos", ⟨none, []⟩)]⟩).1

end TgLinkBot
